import Mathlib

/-!
Verification development for the Chladni-plate simulation repository
(main-thread app in index.js / unnamed part_000, gradient worker in
index.js / unnamed part_001).

Floating-point numbers of the source are modelled as exact numbers: the
trigonometric vibration formula lives over the reals, while the purely
order/arithmetic parts (the gradient scan, the scheduler, the consumer
state) are stated over an arbitrary linear ordered field so that they can
be evaluated on rationals.  JS typed arrays are modelled as total
functions from the integer index; a cell never written holds the
Float32Array default 0.  Math.random() outputs are modelled as an
explicit parameter (a rational in [0,1)).
-/

namespace Chladni

/-- Worker constant MODERATE_RANDOM_VIBRATION_INTENSITY = 3. -/
def MODERATE_RANDOM_VIBRATION_INTENSITY : ℚ := 3

/-- Worker constant AGGRESSIVE_RANDOM_VIBRATION_INTENSITY = MODERATE * 1.5. -/
def AGGRESSIVE_RANDOM_VIBRATION_INTENSITY : ℚ :=
  MODERATE_RANDOM_VIBRATION_INTENSITY * 1.5

/-- Worker constant MIN_NODE_THRESHOLD = 1e-2. -/
def MIN_NODE_THRESHOLD {α : Type} [LinearOrderedField α] : α := 1 / 100

/-- Main-thread constant MAX_GRADIENT_INTENSITY = 0.4. -/
def MAX_GRADIENT_INTENSITY : ℝ := 0.4

/-- Main-thread constant DEFAULT_RANDOM_VIBRATION_INTENSITY = 2. -/
def DEFAULT_RANDOM_VIBRATION_INTENSITY : ℚ := 2

/-- A gradient direction: the pair (nx, ny) stored in the gradients buffer. -/
abbrev Offset := ℤ × ℤ

/-- The 8 neighbour offsets in the order visited by the two nested loops of
GradientWorker.computeGradients (ny outer from -1 to 1, nx inner from -1
to 1, skipping (0,0)). -/
def neighborOffsets : List Offset :=
  [(-1, -1), (0, -1), (1, -1), (-1, 0), (1, 0), (-1, 1), (0, 1), (1, 1)]

/-- Vibration value of the neighbour of cell (x,y) at offset o, read from
the flat row-major vibrationValues array: vibrationValues[(y+ny)*width+(x+nx)]. -/
def offsetValue {α : Type} (vib : ℤ → α) (w x y : ℤ) (o : Offset) : α :=
  vib ((y + o.2) * w + (x + o.1))

/-- One iteration of the neighbour loop body of computeGradients.  The state
is (minVibrationSoFar, candidateGradients); minVibrationSoFar starts at
Number.POSITIVE_INFINITY, modelled as none.  Source:
if (nv <= minVibrationSoFar) { if (nv < minVibrationSoFar)
{ minVibrationSoFar = nv; candidateGradients = []; }
candidateGradients.push([nx, ny]); } -/
def scanNeighbor {α : Type} [LinearOrder α] (st : Option α × List Offset)
    (p : Offset × α) : Option α × List Offset :=
  match st.1 with
  | none => (some p.2, [p.1])
  | some m =>
    if p.2 ≤ m then
      if p.2 < m then (some p.2, [p.1]) else (some m, st.2 ++ [p.1])
    else (some m, st.2)

/-- Running minimum of the second components of a pair list, seeded with m. -/
def runningMin {α : Type} [LinearOrder α] (l : List (Offset × α)) (m : α) : α :=
  l.foldl (fun a p => min a p.2) m

/-- The candidate list of computeGradients at interior cell (x,y): the
neighbour scan started from ([+∞], [[0,0]]). -/
def candidateGradients {α : Type} [LinearOrder α] (vib : ℤ → α) (w x y : ℤ) :
    List Offset :=
  ((neighborOffsets.map fun o => (o, offsetValue vib w x y o)).foldl
    scanNeighbor (none, [((0 : ℤ), (0 : ℤ))])).2

/-- The body of computeGradients for one interior cell: threshold test, the
neighbour scan, then the choice candidateGradients.length === 1 ?
candidateGradients[0] : candidateGradients[floor(random * length)].
r models the Math.random() draw for this cell. -/
def gradientCell {α : Type} [LinearOrderedField α] (vib : ℤ → α) (w x y : ℤ)
    (r : ℚ) : Offset :=
  if vib (y * w + x) < MIN_NODE_THRESHOLD then (0, 0)
  else
    let cands := candidateGradients vib w x y
    if cands.length = 1 then cands.getD 0 (0, 0)
    else cands.getD (Int.toNat ⌊r * (cands.length : ℚ)⌋) (0, 0)

/-- GradientWorker.computeGradients as a per-cell lookup into the gradients
buffer (viewed cell-wise).  The loops run y from 1 while y < height-1 and
x from 1 while x < width-1; every other cell keeps the Float32Array
initial value 0.  rand models the per-cell Math.random() draws. -/
def computeGradients {α : Type} [LinearOrderedField α] (vib : ℤ → α)
    (w h : ℤ) (rand : ℤ → ℤ → ℚ) (x y : ℤ) : Offset :=
  if 1 ≤ x ∧ x < w - 1 ∧ 1 ≤ y ∧ y < h - 1 then
    gradientCell vib w x y (rand x y)
  else (0, 0)

/-- The list of (offset, neighbour value) pairs scanned by the loop, in
visit order. -/
def neighborPairs {α : Type} (vib : ℤ → α) (w x y : ℤ) : List (Offset × α) :=
  neighborOffsets.map fun o => (o, offsetValue vib w x y o)

/-- GradientWorker.computeVibrationValues loop body: with R = 0,
scaledX = x*L + TX, scaledY = y*L + TY, the stored value is
(cos(N*scaledX + R)*cos(M*scaledY + R) - cos(M*scaledX + R)*cos(N*scaledY + R))
divided by 2 and then multiplied by its own sign. -/
noncomputable def computeVibrationValue (m n l tx ty : ℝ) (x y : ℤ) : ℝ :=
  let scaledX := (x : ℝ) * l + tx
  let scaledY := (y : ℝ) * l + ty
  let mx := m * scaledX + 0
  let nx := n * scaledX + 0
  let my := m * scaledY + 0
  let ny := n * scaledY + 0
  let value := Real.cos nx * Real.cos my - Real.cos mx * Real.cos ny
  let value := value / 2
  value * Real.sign value

/-- Concrete 3x3 vibration array used by the C1 witness: the centre cell
(flat index 4) holds 9 and every neighbour holds 2, so all 8 neighbour
offsets tie at the minimum. -/
def vibW : ℤ → ℚ := fun i => if i = 4 then 9 else 2

/-- The worker's parameter record: class ChladniParams { m, n, l }. -/
structure ChladniParams where
  m : ℚ
  n : ℚ
  l : ℚ
deriving DecidableEq, Repr

/-- A message posted by the worker:
{ vibrationIntensity, vibrationValues, gradients }; the two buffers are
modelled as optional flat arrays (null = none). -/
structure Emission (α : Type) where
  vibrationIntensity : ℚ
  vibrationValues : Option (ℤ → α)
  gradients : Option (ℤ → α)

/-- State of the index.js GradientWorker relevant to its message handling:
buffers, dimensions (null in the constructor), the round flag and the
current parameters (the pending-timer handle itself carries no data). -/
structure GWState (α : Type) where
  vibrationValues : Option (ℤ → α)
  gradients : Option (ℤ → α)
  width : Option ℤ
  height : Option ℤ
  isResonantRound : Bool
  currentParams : ChladniParams

/-- A reconfiguration message for the index.js worker:
{ width, height, chladniParams }, every field possibly absent. -/
structure ConfigMsg where
  width : Option ℤ
  height : Option ℤ
  chladniParams : Option ChladniParams

/-- index.js GradientWorker.receiveUpdateFromMainThread: width and height are
assigned unconditionally from the message (this.width = message.data.width,
so an absent field stores undefined); chladniParams is applied only when
present; the pending timer is cleared and isResonantRound is set to true.
The immediate bake and the re-armed periodic timer are modelled by
emissionsAfterConfigure below. -/
def receiveUpdateFromMainThread {α : Type} (st : GWState α) (msg : ConfigMsg) :
    GWState α :=
  { st with
    width := msg.width
    height := msg.height
    currentParams := msg.chladniParams.getD st.currentParams
    isResonantRound := true }

/-- The result of one recalculateGradients call: the freshly baked
vibrationValues and gradients flat buffers (randomness already applied). -/
abbrev Baked (α : Type) := (ℤ → α) × (ℤ → α)

/-- index.js GradientWorker.bakeNextGradients: on a resonant round it bakes
and posts { MODERATE, vibrationValues, gradients }, transferring the
buffers; otherwise it posts { AGGRESSIVE, null, null }; in both cases the
round flag is negated.  The numeric content of the bake is the
computeVibrationValue / computeGradients pair; here it enters as the
already-computed argument so the scheduler can be studied separately. -/
def bakeNextGradients {α : Type} (st : GWState α) (baked : Baked α) :
    GWState α × Emission α :=
  if st.isResonantRound then
    ({ st with
        vibrationValues := some baked.1
        gradients := some baked.2
        isResonantRound := false },
     ⟨MODERATE_RANDOM_VIBRATION_INTENSITY, some baked.1, some baked.2⟩)
  else
    ({ st with isResonantRound := true },
     ⟨AGGRESSIVE_RANDOM_VIBRATION_INTENSITY, none, none⟩)

/-- Worker state after k scheduled bakeNextGradients calls from state st0;
oracle k supplies the bake content of call k. -/
def workerStates {α : Type} (st0 : GWState α) (oracle : ℕ → Baked α) :
    ℕ → GWState α
  | 0 => st0
  | k + 1 => (bakeNextGradients (workerStates st0 oracle k) (oracle k)).1

/-- The k-th message posted after state st0 (call 0 included). -/
def workerEmission {α : Type} (st0 : GWState α) (oracle : ℕ → Baked α)
    (k : ℕ) : Emission α :=
  (bakeNextGradients (workerStates st0 oracle k) (oracle k)).2

/-- The k-th message the worker posts after processing a configure message:
call 0 is the immediate bake inside receiveUpdateFromMainThread, call k is
the k-th tick of the re-armed periodic timer. -/
def emissionsAfterConfigure {α : Type} (st : GWState α) (msg : ConfigMsg)
    (oracle : ℕ → Baked α) (k : ℕ) : Emission α :=
  workerEmission (receiveUpdateFromMainThread st msg) oracle k

/-- A reconfiguration message for the part_001 scheduled worker:
with width, height, frequency, every field possibly absent. -/
structure P001Msg where
  width : Option ℤ
  height : Option ℤ
  frequency : Option ℚ

/-- State of the part_001 scheduled GradientWorker: dimensions, the shared
CHLADNI_PARAMS table, the rotating parameter index, the tracked frequency
and the round flag. -/
structure GW2State where
  width : Option ℤ
  height : Option ℤ
  paramsTable : List ChladniParams
  gradientParametersIndex : ℕ
  currentFrequency : ℚ
  isResonantRound : Bool
deriving DecidableEq

/-- part_001 scheduled worker receiveUpdateFromMainThread: each of width,
height and frequency is applied only when present
(if (message.data.width !== undefined) this.width = ...), the timer is
cleared and the round flag reset to resonant. -/
def receiveUpdateP001 (st : GW2State) (msg : P001Msg) : GW2State :=
  { st with
    width := match msg.width with | some w => some w | none => st.width
    height := match msg.height with | some h => some h | none => st.height
    currentFrequency :=
      match msg.frequency with | some f => f | none => st.currentFrequency
    isResonantRound := true }

/-- The shared CHLADNI_PARAMS table of the part_001 scheduled worker, with
L1 = 0.04, L2 = 0.02, L3 = 0.018 as exact rationals. -/
def CHLADNI_PARAMS_TABLE : List ChladniParams :=
  [⟨1, 2, 1/25⟩, ⟨1, 3, 9/500⟩, ⟨1, 4, 1/50⟩, ⟨1, 5, 1/50⟩, ⟨2, 3, 1/50⟩,
   ⟨2, 5, 1/50⟩, ⟨3, 4, 1/50⟩, ⟨3, 5, 1/50⟩, ⟨3, 7, 1/50⟩]

/-- part_001 scheduled worker bakeNextGradients, its effect on the parameter
table and scheduling state: on a resonant round it takes the shared record
CHLADNI_PARAMS[gradientParametersIndex], overwrites that record's l field
in place (chladniParams.l = this.currentFrequency), bakes with it,
advances the index modulo the table length and flips the round flag; on a
rest round it only flips the flag (the posted messages are as in
bakeNextGradients above). -/
def bakeNextGradientsShared (st : GW2State) : GW2State :=
  if st.isResonantRound then
    { st with
      paramsTable := st.paramsTable.set st.gradientParametersIndex
        { st.paramsTable.getD st.gradientParametersIndex ⟨0, 0, 0⟩ with
            l := st.currentFrequency }
      gradientParametersIndex :=
        (st.gradientParametersIndex + 1) % st.paramsTable.length
      isResonantRound := false }
  else { st with isResonantRound := true }

/-- Constructor state of the part_001 scheduled worker: null dimensions,
the shared table, index 0, frequency L1 = 0.04, resonant round pending. -/
def initGW2 : GW2State :=
  ⟨none, none, CHLADNI_PARAMS_TABLE, 0, 1/25, true⟩

/-- A frequency-slider message: dimensions 3x3 and frequency 0.02. -/
def msgFreq : P001Msg := ⟨some 3, some 3, some (1/50)⟩

/-- Concrete index.js worker state for the C6 counterexample: dimensions
5x5 already configured. -/
def stC6 : GWState ℚ :=
  { vibrationValues := none, gradients := none, width := some 5,
    height := some 5, isResonantRound := false, currentParams := ⟨1, 2, 1/25⟩ }

/-- A reconfiguration message that omits width: only height is present. -/
def msgC6 : ConfigMsg := { width := none, height := some 7, chladniParams := none }

/-- State of ChladniApp relevant to worker-message handling: the current
jitter intensity and its cached half, the held field buffers, the colour
cycle position, the palette read from CSS at startup, and the colour
selected for resonant drawing. -/
structure AppState (α : Type) where
  vibrationIntensity : ℚ
  halfVibrationIntensity : ℚ
  vibrationValues : Option (ℤ → α)
  gradients : Option (ℤ → α)
  colorIndex : ℕ
  colors : List ℕ
  selectedColor : ℕ

/-- ChladniApp.onMessageFromWorker: stores the message's intensity (and its
half), replaces both held buffers with the message's buffers (null stays
null), and — only when the delivered gradients are non-null — advances
colorIndex by one modulo the palette length and re-selects the colour. -/
def onMessageFromWorker {α : Type} (st : AppState α) (msg : Emission α) :
    AppState α :=
  let st1 := { st with
    vibrationIntensity := msg.vibrationIntensity
    halfVibrationIntensity := msg.vibrationIntensity / 2
    vibrationValues := msg.vibrationValues
    gradients := msg.gradients }
  if msg.gradients.isSome then
    { st1 with
      colorIndex := (st1.colorIndex + 1) % st1.colors.length
      selectedColor := st1.colors.getD ((st1.colorIndex + 1) % st1.colors.length) 0 }
  else st1

/-- ChladniApp constructor state as far as message handling is concerned:
colorIndex 0, first palette colour selected, no buffers, default
intensity 2. -/
def initialAppState {α : Type} (palette : List ℕ) : AppState α :=
  { vibrationIntensity := DEFAULT_RANDOM_VIBRATION_INTENSITY
    halfVibrationIntensity := DEFAULT_RANDOM_VIBRATION_INTENSITY / 2
    vibrationValues := none
    gradients := none
    colorIndex := 0
    colors := palette
    selectedColor := palette.getD 0 0 }

/-- The app state after the worker has delivered the listed messages in
order, starting from the constructor state. -/
def processMessages {α : Type} (palette : List ℕ) (msgs : List (Emission α)) :
    AppState α :=
  msgs.foldl onMessageFromWorker (initialAppState palette)

/-- Messages for the C8 witness: three non-null deliveries with two
rest-round deliveries interleaved. -/
def msgsW : List (Emission ℚ) :=
  [⟨3, some (fun _ => 0), some (fun _ => 0)⟩, ⟨9/2, none, none⟩,
   ⟨3, some (fun _ => 1), some (fun _ => 1)⟩, ⟨9/2, none, none⟩,
   ⟨3, some (fun _ => 2), some (fun _ => 2)⟩]

/-- One axis of the per-particle position update in ChladniApp.update: when
a gradient field is active the sampled component is added scaled by
MAX_GRADIENT_INTENSITY, then the jitter
Math.random() * vibrationIntensity - halfVibrationIntensity is added
(r models the Math.random() draw for this axis). -/
noncomputable def updateParticleAxis (pos : ℝ) (grad : Option ℝ)
    (intensity r : ℝ) : ℝ :=
  let pos1 := match grad with
    | some g => pos + MAX_GRADIENT_INTENSITY * g
    | none => pos
  pos1 + (r * intensity - intensity / 2)

/-- ChladniApp.obtainGradientAt: rounds the position and reads the flat
gradients Float32Array at index (round(y)*width + round(x))*2 and the next
slot — there is no bounds check before the read. -/
noncomputable def obtainGradientAt (gradients : ℤ → ℝ) (w : ℤ) (x y : ℝ) :
    ℝ × ℝ :=
  let index := (round y * w + round x) * 2
  (gradients index, gradients (index + 1))

/-- The flat framebuffer index Math.round(y)*width + Math.round(x) to which
ChladniApp.update writes the particle's pixel — no bounds check either. -/
noncomputable def rasterIndex (w : ℤ) (x y : ℝ) : ℤ := round y * w + round x

/-- JS typed-array write semantics: an integer index inside [0, len) stores
into that slot, any other index is silently ignored; the result is the
slot actually written. -/
def bufferWriteSlot (len idx : ℤ) : Option ℤ :=
  if 0 ≤ idx ∧ idx < len then some idx else none

/-- The full per-particle step of ChladniApp.update: when gradients are
active, sample them at the current (unrounded) position via
obtainGradientAt, add the scaled sample, then jitter both axes. -/
noncomputable def updateParticle (gradients : Option (ℤ → ℝ)) (w : ℤ)
    (pos : ℝ × ℝ) (intensity rx ry : ℝ) : ℝ × ℝ :=
  match gradients with
  | some g =>
    let gr := obtainGradientAt g w pos.1 pos.2
    (updateParticleAxis pos.1 (some gr.1) intensity rx,
     updateParticleAxis pos.2 (some gr.2) intensity ry)
  | none =>
    (updateParticleAxis pos.1 none intensity rx,
     updateParticleAxis pos.2 none intensity ry)

section ScanLemmas

variable {α : Type} [LinearOrder α]

theorem runningMin_cons (p : Offset × α) (t : List (Offset × α)) (m : α) :
    runningMin (p :: t) m = runningMin t (min m p.2) := rfl

theorem runningMin_le (l : List (Offset × α)) : ∀ m : α, runningMin l m ≤ m := by
  induction l with
  | nil => intro m; exact le_refl m
  | cons p t ih =>
    intro m
    calc runningMin (p :: t) m = runningMin t (min m p.2) := rfl
      _ ≤ min m p.2 := ih (min m p.2)
      _ ≤ m := min_le_left _ _

theorem runningMin_le_snd (l : List (Offset × α)) :
    ∀ m : α, ∀ q ∈ l, runningMin l m ≤ q.2 := by
  induction l with
  | nil => intro m q hq; exact absurd hq (List.not_mem_nil q)
  | cons p t ih =>
    intro m q hq
    rcases List.mem_cons.mp hq with h | h
    · rw [h]
      calc runningMin (p :: t) m = runningMin t (min m p.2) := rfl
        _ ≤ min m p.2 := runningMin_le t _
        _ ≤ p.2 := min_le_right _ _
    · exact ih (min m p.2) q h

theorem runningMin_eq_seed_or_mem (l : List (Offset × α)) :
    ∀ m : α, runningMin l m = m ∨ ∃ q ∈ l, runningMin l m = q.2 := by
  induction l with
  | nil => intro m; exact Or.inl rfl
  | cons p t ih =>
    intro m
    rcases ih (min m p.2) with h | ⟨q, hq, hq2⟩
    · rw [runningMin_cons, h]
      rcases min_cases m p.2 with ⟨he, _⟩ | ⟨he, _⟩
      · exact Or.inl he
      · exact Or.inr ⟨p, List.mem_cons_self p t, he⟩
    · exact Or.inr ⟨q, List.mem_cons_of_mem p hq, by rw [runningMin_cons, hq2]⟩

/-- Characterisation of the neighbour loop from a finite seed m with pending
candidate list cs: the final minimum is the running minimum, and the final
candidate list keeps cs only when no strictly smaller value appeared, and
appends every entry whose value equals the final minimum. -/
theorem foldl_scanNeighbor_some (l : List (Offset × α)) :
    ∀ (m : α) (cs : List Offset),
      l.foldl scanNeighbor (some m, cs) =
        (some (runningMin l m),
         (if runningMin l m < m then [] else cs) ++
           (l.filter fun p => p.2 = runningMin l m).map Prod.fst) := by
  induction l with
  | nil =>
    intro m cs
    simp [runningMin]
  | cons p t ih =>
    intro m cs
    have hM : runningMin (p :: t) m = runningMin t (min m p.2) := rfl
    rcases lt_trichotomy p.2 m with hlt | heq | hgt
    · -- p.2 < m : reset candidates to [p.1], seed becomes p.2
      have hstep : scanNeighbor (some m, cs) p = (some p.2, [p.1]) := by
        simp [scanNeighbor, le_of_lt hlt, hlt]
      have hmin : min m p.2 = p.2 := min_eq_right (le_of_lt hlt)
      have hMle : runningMin t p.2 ≤ p.2 := runningMin_le t p.2
      rw [List.foldl_cons, hstep, ih p.2 [p.1], hM, hmin]
      have hMm : runningMin t p.2 < m := lt_of_le_of_lt hMle hlt
      rw [if_pos hMm, List.nil_append]
      rcases lt_or_eq_of_le hMle with hMlt | hMeq
      · rw [if_pos hMlt, List.nil_append]
        have hne : ¬ (p.2 = runningMin t p.2) := fun he => absurd he.symm (ne_of_lt hMlt)
        simp [List.filter_cons, hne]
      · rw [if_neg (by rw [hMeq]; exact lt_irrefl _), hMeq]
        simp [List.filter_cons]
    · -- p.2 = m : tie, append p.1
      have hstep : scanNeighbor (some m, cs) p = (some m, cs ++ [p.1]) := by
        simp only [scanNeighbor]
        rw [if_pos (le_of_eq heq), if_neg (fun hc => absurd heq (ne_of_lt hc))]
      have hmin : min m p.2 = m := min_eq_left (le_of_eq heq.symm)
      rw [List.foldl_cons, hstep, ih m (cs ++ [p.1]), hM, hmin]
      rcases lt_or_eq_of_le (runningMin_le t m) with hMlt | hMeq
      · rw [if_pos hMlt, if_pos hMlt, List.nil_append, List.nil_append]
        have hne : ¬ (p.2 = runningMin t m) := by
          rw [heq]; exact fun he => absurd he.symm (ne_of_lt hMlt)
        simp [List.filter_cons, hne]
      · rw [if_neg (by rw [hMeq]; exact lt_irrefl _),
          if_neg (by rw [hMeq]; exact lt_irrefl _)]
        have hpe : p.2 = runningMin t m := by rw [heq, hMeq]
        simp [List.filter_cons, hpe, List.append_assoc]
    · -- m < p.2 : neighbour skipped
      have hstep : scanNeighbor (some m, cs) p = (some m, cs) := by
        simp [scanNeighbor, not_le.mpr hgt]
      have hmin : min m p.2 = m := min_eq_left (le_of_lt hgt)
      rw [List.foldl_cons, hstep, ih m cs, hM, hmin]
      have hne : ¬ (p.2 = runningMin t m) :=
        fun he => absurd (he ▸ runningMin_le t m) (not_le.mpr hgt)
      simp [List.filter_cons, hne]

/-- Starting the neighbour loop from minVibrationSoFar = +∞: the initial
candidate list is discarded on the first neighbour, and the result is the
set of entries achieving the minimum value, in visit order. -/
theorem foldl_scanNeighbor_none (p : Offset × α) (t : List (Offset × α))
    (c0 : List Offset) :
    (p :: t).foldl scanNeighbor (none, c0) =
      (some (runningMin t p.2),
       ((p :: t).filter fun q => q.2 = runningMin t p.2).map Prod.fst) := by
  have hstep : scanNeighbor ((none : Option α), c0) p = (some p.2, [p.1]) := rfl
  rw [List.foldl_cons, hstep, foldl_scanNeighbor_some t p.2 [p.1]]
  rcases lt_or_eq_of_le (runningMin_le t p.2) with hMlt | hMeq
  · rw [if_pos hMlt, List.nil_append]
    have hne : ¬ (p.2 = runningMin t p.2) := fun he => absurd he.symm (ne_of_lt hMlt)
    simp [List.filter_cons, hne]
  · rw [if_neg (by rw [hMeq]; exact lt_irrefl _)]
    set M := runningMin t p.2 with hMdef
    have hpe : p.2 = M := hMeq.symm
    simp [List.filter_cons, hpe]

end ScanLemmas

theorem mem_neighborPairs_elim {α : Type} (vib : ℤ → α) (w x y : ℤ) {q : Offset × α}
    (h : q ∈ neighborPairs vib w x y) :
    q.1 ∈ neighborOffsets ∧ q.2 = offsetValue vib w x y q.1 := by
  rcases List.mem_map.mp h with ⟨o, ho, he⟩
  refine ⟨?_, ?_⟩
  · rw [show q.1 = o by rw [show q = (o, offsetValue vib w x y o) from he.symm]]
    exact ho
  · rw [show q = (o, offsetValue vib w x y o) from he.symm]

theorem offset_mem_neighborPairs {α : Type} (vib : ℤ → α) (w x y : ℤ) {o : Offset}
    (ho : o ∈ neighborOffsets) :
    (o, offsetValue vib w x y o) ∈ neighborPairs vib w x y :=
  List.mem_map_of_mem (fun o => (o, offsetValue vib w x y o)) ho

section CandidateLemmas

variable {α : Type} [LinearOrder α]

/-- The candidate list computed by the neighbour scan is exactly the list of
offsets whose neighbour value attains the minimum value M over the 8
neighbours: M is a lower bound of all scanned values and is attained. -/
theorem candidateGradients_spec (vib : ℤ → α) (w x y : ℤ) :
    ∃ M : α,
      candidateGradients vib w x y =
        ((neighborPairs vib w x y).filter fun q => q.2 = M).map Prod.fst ∧
      (∀ q ∈ neighborPairs vib w x y, M ≤ q.2) ∧
      (∃ q ∈ neighborPairs vib w x y, q.2 = M) := by
  have hsh : neighborPairs vib w x y =
      ((-1, -1), offsetValue vib w x y (-1, -1)) ::
        (neighborOffsets.tail.map fun o => (o, offsetValue vib w x y o)) := by
    simp [neighborPairs, neighborOffsets]
  set p0 : Offset × α := ((-1, -1), offsetValue vib w x y (-1, -1)) with hp0
  set rest : List (Offset × α) :=
    neighborOffsets.tail.map fun o => (o, offsetValue vib w x y o) with hrest
  refine ⟨runningMin rest p0.2, ?_, ?_, ?_⟩
  · have hc : candidateGradients vib w x y =
        ((p0 :: rest).foldl scanNeighbor (none, [((0 : ℤ), (0 : ℤ))])).2 := by
      rw [candidateGradients, show (neighborOffsets.map fun o =>
        (o, offsetValue vib w x y o)) = p0 :: rest from hsh]
    rw [hc, foldl_scanNeighbor_none, hsh]
  · intro q hq
    rw [hsh] at hq
    rcases List.mem_cons.mp hq with h | h
    · rw [h]; exact runningMin_le rest p0.2
    · exact runningMin_le_snd rest p0.2 q h
  · rcases runningMin_eq_seed_or_mem rest p0.2 with h | ⟨q, hq, hq2⟩
    · exact ⟨p0, by rw [hsh]; exact List.mem_cons_self p0 rest, h.symm⟩
    · exact ⟨q, by rw [hsh]; exact List.mem_cons_of_mem p0 hq, hq2.symm⟩

theorem candidateGradients_ne_nil (vib : ℤ → α) (w x y : ℤ) :
    candidateGradients vib w x y ≠ [] := by
  obtain ⟨M, hc, _, ⟨q, hq, hq2⟩⟩ := candidateGradients_spec vib w x y
  intro hnil
  rw [hc] at hnil
  have hqf : q ∈ (neighborPairs vib w x y).filter fun q => q.2 = M :=
    List.mem_filter.mpr ⟨hq, decide_eq_true hq2⟩
  rw [List.map_eq_nil_iff] at hnil
  rw [hnil] at hqf
  exact List.not_mem_nil q hqf

theorem mem_candidateGradients_elim (vib : ℤ → α) (w x y : ℤ) {o : Offset}
    (h : o ∈ candidateGradients vib w x y) :
    o ∈ neighborOffsets ∧
      ∀ q ∈ neighborOffsets, offsetValue vib w x y o ≤ offsetValue vib w x y q := by
  obtain ⟨M, hc, hlb, _⟩ := candidateGradients_spec vib w x y
  rw [hc] at h
  rcases List.mem_map.mp h with ⟨q, hqf, hfst⟩
  have hqp : q ∈ neighborPairs vib w x y := (List.mem_filter.mp hqf).1
  have hqM : q.2 = M := of_decide_eq_true (List.mem_filter.mp hqf).2
  obtain ⟨hq1, hq2⟩ := mem_neighborPairs_elim vib w x y hqp
  have hoq : o = q.1 := hfst.symm
  refine ⟨hoq ▸ hq1, ?_⟩
  intro q2 hq2mem
  have hval : offsetValue vib w x y o = M := by rw [hoq, ← hq2, hqM]
  rw [hval]
  have := hlb (q2, offsetValue vib w x y q2) (offset_mem_neighborPairs vib w x y hq2mem)
  exact this

theorem min_offset_mem_candidateGradients (vib : ℤ → α) (w x y : ℤ)
    {o : Offset} (ho : o ∈ neighborOffsets)
    (hmin : ∀ q ∈ neighborOffsets,
      offsetValue vib w x y o ≤ offsetValue vib w x y q) :
    o ∈ candidateGradients vib w x y := by
  obtain ⟨M, hc, hlb, ⟨q, hq, hqM⟩⟩ := candidateGradients_spec vib w x y
  obtain ⟨hq1, hq2⟩ := mem_neighborPairs_elim vib w x y hq
  have hoM : offsetValue vib w x y o = M := by
    refine le_antisymm ?_ ?_
    · rw [← hqM, hq2]; exact hmin q.1 hq1
    · exact hlb (o, offsetValue vib w x y o) (offset_mem_neighborPairs vib w x y ho)
  rw [hc]
  have : (o, offsetValue vib w x y o) ∈
      (neighborPairs vib w x y).filter fun q => q.2 = M :=
    List.mem_filter.mpr ⟨offset_mem_neighborPairs vib w x y ho, decide_eq_true hoM⟩
  exact List.mem_map_of_mem Prod.fst this

end CandidateLemmas

section GradientCellLemmas

variable {α : Type} [LinearOrderedField α]

theorem getD_mem_of_lt {β : Type} (l : List β) (i : ℕ) (d : β)
    (h : i < l.length) : l.getD i d ∈ l := by
  rw [List.getD_eq_getElem l d h]
  exact List.getElem_mem h

theorem gradientCell_below_threshold (vib : ℤ → α) (w x y : ℤ) (r : ℚ)
    (h : vib (y * w + x) < MIN_NODE_THRESHOLD) :
    gradientCell vib w x y r = (0, 0) := by
  rw [gradientCell, if_pos h]

theorem gradientCell_mem (vib : ℤ → α) (w x y : ℤ) (r : ℚ)
    (h0 : 0 ≤ r) (h1 : r < 1)
    (hth : ¬ vib (y * w + x) < MIN_NODE_THRESHOLD) :
    gradientCell vib w x y r ∈ candidateGradients vib w x y := by
  rw [gradientCell, if_neg hth]
  have hne : candidateGradients vib w x y ≠ [] := candidateGradients_ne_nil vib w x y
  have hlen : 0 < (candidateGradients vib w x y).length := List.length_pos.mpr hne
  by_cases hc : (candidateGradients vib w x y).length = 1
  · simp only [hc, if_pos]
    exact getD_mem_of_lt _ 0 (0, 0) hlen
  · simp only [hc, if_neg, if_false]
    refine getD_mem_of_lt _ _ (0, 0) ?_
    have hlenq : (0 : ℚ) < ((candidateGradients vib w x y).length : ℚ) := by
      exact_mod_cast hlen
    have hflo : ⌊r * ((candidateGradients vib w x y).length : ℚ)⌋ <
        ((candidateGradients vib w x y).length : ℤ) := by
      rw [Int.floor_lt]
      push_cast
      calc r * ((candidateGradients vib w x y).length : ℚ)
          < 1 * ((candidateGradients vib w x y).length : ℚ) :=
            mul_lt_mul_of_pos_right h1 hlenq
        _ = ((candidateGradients vib w x y).length : ℚ) := one_mul _
    have hpos : 0 ≤ ⌊r * ((candidateGradients vib w x y).length : ℚ)⌋ :=
      Int.floor_nonneg.mpr (mul_nonneg h0 (le_of_lt hlenq))
    omega

theorem gradientCell_selectable (vib : ℤ → α) (w x y : ℤ)
    (hth : ¬ vib (y * w + x) < MIN_NODE_THRESHOLD) {o : Offset}
    (ho : o ∈ neighborOffsets)
    (hmin : ∀ q ∈ neighborOffsets,
      offsetValue vib w x y o ≤ offsetValue vib w x y q) :
    ∃ r : ℚ, 0 ≤ r ∧ r < 1 ∧ gradientCell vib w x y r = o := by
  have homem : o ∈ candidateGradients vib w x y :=
    min_offset_mem_candidateGradients vib w x y ho hmin
  obtain ⟨j, hj, hjo⟩ := List.getElem_of_mem homem
  have hlen : 0 < (candidateGradients vib w x y).length :=
    List.length_pos.mpr (candidateGradients_ne_nil vib w x y)
  by_cases hc : (candidateGradients vib w x y).length = 1
  · refine ⟨0, le_refl 0, zero_lt_one, ?_⟩
    rw [gradientCell, if_neg hth]
    simp only [hc, if_pos]
    have hj0 : j = 0 := by omega
    subst hj0
    rw [List.getD_eq_getElem _ (0, 0) (by omega)]
    exact hjo
  · have hlenq : (0 : ℚ) < ((candidateGradients vib w x y).length : ℚ) := by
      exact_mod_cast hlen
    refine ⟨(j : ℚ) / ((candidateGradients vib w x y).length : ℚ),
      div_nonneg (Nat.cast_nonneg j) (le_of_lt hlenq), ?_, ?_⟩
    · rw [div_lt_one hlenq]
      exact_mod_cast hj
    · rw [gradientCell, if_neg hth]
      simp only [hc, if_neg, if_false]
      have hcancel : (j : ℚ) / ((candidateGradients vib w x y).length : ℚ) *
          ((candidateGradients vib w x y).length : ℚ) = (j : ℚ) :=
        div_mul_cancel₀ _ (ne_of_gt hlenq)
      rw [hcancel, Int.floor_natCast, Int.toNat_natCast,
        List.getD_eq_getElem _ (0, 0) hj, hjo]

end GradientCellLemmas

theorem mul_sign_eq_abs (v : ℝ) : v * Real.sign v = |v| := by
  rcases lt_trichotomy v 0 with h | h | h
  · rw [Real.sign_of_neg h, abs_of_neg h]; ring
  · rw [h, Real.sign_zero, abs_zero, zero_mul]
  · rw [Real.sign_of_pos h, abs_of_pos h]; ring

/-- C2: every stored vibration value equals
abs(cos(n*(x*l+phaseX))*cos(m*(y*l+phaseY)) -
cos(m*(x*l+phaseX))*cos(n*(y*l+phaseY))) / 2, and in particular is
non-negative, for all parameters, phase offsets and cells. -/
theorem c2_vibration_formula (m n l tx ty : ℝ) (x y : ℤ) :
    computeVibrationValue m n l tx ty x y =
      |Real.cos (n * ((x : ℝ) * l + tx)) * Real.cos (m * ((y : ℝ) * l + ty)) -
        Real.cos (m * ((x : ℝ) * l + tx)) * Real.cos (n * ((y : ℝ) * l + ty))| / 2 ∧
    0 ≤ computeVibrationValue m n l tx ty x y := by
  have he : computeVibrationValue m n l tx ty x y =
      |Real.cos (n * ((x : ℝ) * l + tx)) * Real.cos (m * ((y : ℝ) * l + ty)) -
        Real.cos (m * ((x : ℝ) * l + tx)) * Real.cos (n * ((y : ℝ) * l + ty))| / 2 := by
    rw [computeVibrationValue]
    simp only [add_zero]
    rw [mul_sign_eq_abs, abs_div]
    norm_num
  exact ⟨he, by rw [he]; positivity⟩

/-- C1: for an interior cell (1 ≤ x ≤ width-2, 1 ≤ y ≤ height-2) of a baked
grid: if the cell's own vibration value is below MIN_NODE_THRESHOLD = 0.01
the emitted gradient is (0,0); otherwise the emitted gradient is one of the
8 neighbour offsets, is never (0,0), its neighbour's vibration value is a
minimum among the 8 neighbour values, and every offset achieving that
minimum is produced by some value of the random source in [0,1). -/
theorem c1_interior_descent {α : Type} [LinearOrderedField α]
    (vib : ℤ → α) (w h : ℤ) (rand : ℤ → ℤ → ℚ) (x y : ℤ)
    (hx1 : 1 ≤ x) (hx2 : x < w - 1) (hy1 : 1 ≤ y) (hy2 : y < h - 1)
    (hr0 : 0 ≤ rand x y) (hr1 : rand x y < 1) :
    (vib (y * w + x) < MIN_NODE_THRESHOLD →
       computeGradients vib w h rand x y = (0, 0)) ∧
    (¬ vib (y * w + x) < MIN_NODE_THRESHOLD →
       computeGradients vib w h rand x y ∈ neighborOffsets ∧
       computeGradients vib w h rand x y ≠ (0, 0) ∧
       ∀ o ∈ neighborOffsets,
         offsetValue vib w x y (computeGradients vib w h rand x y) ≤
           offsetValue vib w x y o) ∧
    (¬ vib (y * w + x) < MIN_NODE_THRESHOLD →
       ∀ o ∈ neighborOffsets,
         (∀ q ∈ neighborOffsets,
            offsetValue vib w x y o ≤ offsetValue vib w x y q) →
         ∃ r : ℚ, 0 ≤ r ∧ r < 1 ∧
           computeGradients vib w h (fun _ _ => r) x y = o) := by
  have hint : 1 ≤ x ∧ x < w - 1 ∧ 1 ≤ y ∧ y < h - 1 := ⟨hx1, hx2, hy1, hy2⟩
  have hcg : computeGradients vib w h rand x y =
      gradientCell vib w x y (rand x y) := by
    rw [computeGradients, if_pos hint]
  refine ⟨?_, ?_, ?_⟩
  · intro hlow
    rw [hcg]
    exact gradientCell_below_threshold vib w x y _ hlow
  · intro hth
    rw [hcg]
    have hmem := gradientCell_mem vib w x y (rand x y) hr0 hr1 hth
    obtain ⟨h1, h2⟩ := mem_candidateGradients_elim vib w x y hmem
    refine ⟨h1, ?_, h2⟩
    intro he
    rw [he] at h1
    exact absurd h1 (by decide)
  · intro hth o ho hmin
    obtain ⟨r, ha, hb, he⟩ := gradientCell_selectable vib w x y hth ho hmin
    exact ⟨r, ha, hb, by rw [computeGradients, if_pos hint]; exact he⟩

theorem c1_interior_descent_witness :
    (vibW (1 * 3 + 1) < MIN_NODE_THRESHOLD →
       computeGradients vibW 3 3 (fun _ _ => (1 : ℚ)/2) 1 1 = (0, 0)) ∧
    (¬ vibW (1 * 3 + 1) < MIN_NODE_THRESHOLD →
       computeGradients vibW 3 3 (fun _ _ => (1 : ℚ)/2) 1 1 ∈ neighborOffsets ∧
       computeGradients vibW 3 3 (fun _ _ => (1 : ℚ)/2) 1 1 ≠ (0, 0) ∧
       ∀ o ∈ neighborOffsets,
         offsetValue vibW 3 1 1 (computeGradients vibW 3 3 (fun _ _ => (1 : ℚ)/2) 1 1) ≤
           offsetValue vibW 3 1 1 o) ∧
    (¬ vibW (1 * 3 + 1) < MIN_NODE_THRESHOLD →
       ∀ o ∈ neighborOffsets,
         (∀ q ∈ neighborOffsets,
            offsetValue vibW 3 1 1 o ≤ offsetValue vibW 3 1 1 q) →
         ∃ r : ℚ, 0 ≤ r ∧ r < 1 ∧
           computeGradients vibW 3 3 (fun _ _ => r) 1 1 = o) :=
  c1_interior_descent vibW 3 3 (fun _ _ => (1 : ℚ)/2) 1 1
    (by decide) (by decide) (by decide) (by decide)
    (by norm_num) (by norm_num)

/-- C3: for grids with width, height ≥ 2, the gradient field at every border
cell is (0,0): the computeGradients loops never touch the border, which
keeps the Float32Array initial value 0. -/
theorem c3_border_zero {α : Type} [LinearOrderedField α]
    (vib : ℤ → α) (w h : ℤ) (rand : ℤ → ℤ → ℚ) (x y : ℤ)
    (_hw : 2 ≤ w) (_hh : 2 ≤ h)
    (hb : x = 0 ∨ x = w - 1 ∨ y = 0 ∨ y = h - 1) :
    computeGradients vib w h rand x y = (0, 0) := by
  rw [computeGradients, if_neg (by omega)]

theorem c3_border_zero_witness :
    computeGradients (fun _ => (0 : ℚ)) 2 2 (fun _ _ => 0) 0 0 = (0, 0) :=
  c3_border_zero (fun _ => (0 : ℚ)) 2 2 (fun _ _ => 0) 0 0
    (by decide) (by decide) (Or.inl rfl)

/-- C5: after configure, emission 0 carries non-null buffers at intensity
MODERATE = 3, emission 1 carries null buffers at intensity
AGGRESSIVE = 4.5, emission 2 carries non-null buffers again, and in every
emission the two buffers are both null or both non-null. -/
theorem c5_alternation {α : Type} (st : GWState α) (msg : ConfigMsg)
    (oracle : ℕ → Baked α) :
    (emissionsAfterConfigure st msg oracle 0).vibrationIntensity = 3 ∧
    (emissionsAfterConfigure st msg oracle 0).vibrationValues.isSome = true ∧
    (emissionsAfterConfigure st msg oracle 0).gradients.isSome = true ∧
    (emissionsAfterConfigure st msg oracle 1).vibrationIntensity = 4.5 ∧
    (emissionsAfterConfigure st msg oracle 1).vibrationValues = none ∧
    (emissionsAfterConfigure st msg oracle 1).gradients = none ∧
    (emissionsAfterConfigure st msg oracle 2).vibrationValues.isSome = true ∧
    (emissionsAfterConfigure st msg oracle 2).gradients.isSome = true ∧
    ∀ k : ℕ,
      (emissionsAfterConfigure st msg oracle k).vibrationValues.isSome =
        (emissionsAfterConfigure st msg oracle k).gradients.isSome := by
  refine ⟨?_, ?_, ?_, ?_, ?_, ?_, ?_, ?_, ?_⟩
  · simp [emissionsAfterConfigure, workerEmission, workerStates,
      bakeNextGradients, receiveUpdateFromMainThread,
      MODERATE_RANDOM_VIBRATION_INTENSITY]
  · simp [emissionsAfterConfigure, workerEmission, workerStates,
      bakeNextGradients, receiveUpdateFromMainThread]
  · simp [emissionsAfterConfigure, workerEmission, workerStates,
      bakeNextGradients, receiveUpdateFromMainThread]
  · simp [emissionsAfterConfigure, workerEmission, workerStates,
      bakeNextGradients, receiveUpdateFromMainThread,
      AGGRESSIVE_RANDOM_VIBRATION_INTENSITY,
      MODERATE_RANDOM_VIBRATION_INTENSITY]
    norm_num
  · simp [emissionsAfterConfigure, workerEmission, workerStates,
      bakeNextGradients, receiveUpdateFromMainThread]
  · simp [emissionsAfterConfigure, workerEmission, workerStates,
      bakeNextGradients, receiveUpdateFromMainThread]
  · simp [emissionsAfterConfigure, workerEmission, workerStates,
      bakeNextGradients, receiveUpdateFromMainThread]
  · simp [emissionsAfterConfigure, workerEmission, workerStates,
      bakeNextGradients, receiveUpdateFromMainThread]
  · intro k
    rw [emissionsAfterConfigure, workerEmission]
    by_cases hfl : (workerStates (receiveUpdateFromMainThread st msg) oracle
        k).isResonantRound
    · simp [bakeNextGradients, hfl]
    · simp [bakeNextGradients, hfl]

/-- C7 counterexample: in the part_001 scheduled worker, after one
reconfiguration message carrying frequency 0.02, the bake mutates the
shared CHLADNI_PARAMS record in place: its l field, created as 0.04,
becomes 0.02. -/
theorem c7_counterexample :
    ((bakeNextGradientsShared (receiveUpdateP001 initGW2 msgFreq)).paramsTable.getD
        0 ⟨0, 0, 0⟩).l = 1/50 ∧
    (CHLADNI_PARAMS_TABLE.getD 0 ⟨0, 0, 0⟩).l = 1/25 ∧
    (1/50 : ℚ) ≠ 1/25 := by
  refine ⟨?_, ?_, by norm_num⟩
  · simp [bakeNextGradientsShared, receiveUpdateP001, initGW2, msgFreq,
      CHLADNI_PARAMS_TABLE]
  · simp [CHLADNI_PARAMS_TABLE]

/-- C7 amended: in the index.js worker a bake leaves the parameter record
unchanged; in the part_001 scheduled worker a resonant-round bake with the
index in range and a currentFrequency differing from the shared record's l
field mutates the shared parameter table in place. -/
theorem c7_bake_params :
    (∀ (α : Type) (st : GWState α) (baked : Baked α),
       (bakeNextGradients st baked).1.currentParams = st.currentParams) ∧
    (∀ st : GW2State, st.isResonantRound = true →
       st.gradientParametersIndex < st.paramsTable.length →
       st.currentFrequency ≠
         (st.paramsTable.getD st.gradientParametersIndex ⟨0, 0, 0⟩).l →
       (bakeNextGradientsShared st).paramsTable ≠ st.paramsTable) := by
  constructor
  · intro α st baked
    by_cases hfl : st.isResonantRound
    · simp [bakeNextGradients, hfl]
    · simp [bakeNextGradients, hfl]
  · intro st hfl hlt hne heq
    rw [bakeNextGradientsShared, if_pos hfl] at heq
    have hset : ((st.paramsTable.set st.gradientParametersIndex
        { st.paramsTable.getD st.gradientParametersIndex ⟨0, 0, 0⟩ with
            l := st.currentFrequency }).getD st.gradientParametersIndex
          ⟨0, 0, 0⟩).l = st.currentFrequency := by
      rw [List.getD_eq_getElem _ _ (by rw [List.length_set]; exact hlt)]
      rw [List.getElem_set_self]
    have heqT : (st.paramsTable.set st.gradientParametersIndex
        { st.paramsTable.getD st.gradientParametersIndex ⟨0, 0, 0⟩ with
            l := st.currentFrequency }) = st.paramsTable := heq
    rw [heqT] at hset
    exact hne hset.symm

theorem c7_bake_params_witness :
    (bakeNextGradients (⟨none, none, none, none, true, ⟨1, 2, 1/25⟩⟩ : GWState ℚ)
        (fun _ => 0, fun _ => 0)).1.currentParams = ⟨1, 2, 1/25⟩ ∧
    (bakeNextGradientsShared (receiveUpdateP001 initGW2 msgFreq)).paramsTable ≠
      (receiveUpdateP001 initGW2 msgFreq).paramsTable :=
  ⟨c7_bake_params.1 ℚ ⟨none, none, none, none, true, ⟨1, 2, 1/25⟩⟩
      (fun _ => 0, fun _ => 0),
   c7_bake_params.2 (receiveUpdateP001 initGW2 msgFreq)
      (by decide) (by decide)
      (by simp [receiveUpdateP001, initGW2, msgFreq, CHLADNI_PARAMS_TABLE])⟩

/-- C6 counterexample: in the index.js worker, a message without a width
field does not retain the prior width — this.width is overwritten with the
(undefined) message field. -/
theorem c6_counterexample :
    (receiveUpdateFromMainThread stC6 msgC6).width = none ∧
    stC6.width = some 5 :=
  ⟨rfl, rfl⟩

/-- C6 amended: in the part_001 scheduled worker every absent field (width,
height, frequency) retains its prior value; in the index.js worker only an
absent chladniParams retains the prior parameters, while width and height
are always overwritten with the message's raw values. -/
theorem c6_field_application :
    (∀ (st : GW2State) (msg : P001Msg),
       (msg.width = none → (receiveUpdateP001 st msg).width = st.width) ∧
       (msg.height = none → (receiveUpdateP001 st msg).height = st.height) ∧
       (msg.frequency = none →
         (receiveUpdateP001 st msg).currentFrequency = st.currentFrequency)) ∧
    (∀ (α : Type) (st : GWState α) (msg : ConfigMsg),
       (msg.chladniParams = none →
         (receiveUpdateFromMainThread st msg).currentParams = st.currentParams) ∧
       (receiveUpdateFromMainThread st msg).width = msg.width ∧
       (receiveUpdateFromMainThread st msg).height = msg.height) := by
  constructor
  · intro st msg
    refine ⟨?_, ?_, ?_⟩
    · intro h; simp [receiveUpdateP001, h]
    · intro h; simp [receiveUpdateP001, h]
    · intro h; simp [receiveUpdateP001, h]
  · intro α st msg
    refine ⟨?_, rfl, rfl⟩
    intro h
    simp [receiveUpdateFromMainThread, h]

theorem c6_field_application_witness :
    (receiveUpdateP001 initGW2 ⟨none, none, none⟩).width = initGW2.width ∧
    (receiveUpdateP001 initGW2 ⟨none, none, none⟩).currentFrequency =
      initGW2.currentFrequency ∧
    (receiveUpdateFromMainThread stC6 msgC6).currentParams =
      stC6.currentParams :=
  ⟨(c6_field_application.1 initGW2 ⟨none, none, none⟩).1 rfl,
   (c6_field_application.1 initGW2 ⟨none, none, none⟩).2.2 rfl,
   (c6_field_application.2 ℚ stC6 msgC6).1 rfl⟩

theorem onMessageFromWorker_colors {α : Type} (st : AppState α)
    (msg : Emission α) : (onMessageFromWorker st msg).colors = st.colors := by
  by_cases h : msg.gradients.isSome
  · simp [onMessageFromWorker, h]
  · simp [onMessageFromWorker, h]

theorem foldl_onMessage_colorIndex {α : Type} (msgs : List (Emission α)) :
    ∀ st : AppState α, st.colorIndex % st.colors.length = st.colorIndex →
      (msgs.foldl onMessageFromWorker st).colorIndex =
        (st.colorIndex + msgs.countP fun m => m.gradients.isSome) %
          st.colors.length := by
  induction msgs with
  | nil =>
    intro st hred
    simpa using hred.symm
  | cons m t ih =>
    intro st hred
    rw [List.foldl_cons]
    by_cases h : m.gradients.isSome
    · have hstep : (onMessageFromWorker st m).colorIndex =
          (st.colorIndex + 1) % st.colors.length := by
        simp [onMessageFromWorker, h]
      have hcolors : (onMessageFromWorker st m).colors = st.colors :=
        onMessageFromWorker_colors st m
      have hred2 : (onMessageFromWorker st m).colorIndex %
          (onMessageFromWorker st m).colors.length =
            (onMessageFromWorker st m).colorIndex := by
        rw [hstep, hcolors]
        exact Nat.mod_mod_of_dvd _ dvd_rfl
      have hmain := ih (onMessageFromWorker st m) hred2
      rw [hmain, hstep, hcolors, List.countP_cons, if_pos h, Nat.mod_add_mod]
      congr 1
      ring
    · have hstep : (onMessageFromWorker st m).colorIndex = st.colorIndex := by
        simp [onMessageFromWorker, h]
      have hcolors : (onMessageFromWorker st m).colors = st.colors :=
        onMessageFromWorker_colors st m
      have hmain := ih (onMessageFromWorker st m)
        (by rw [hstep, hcolors]; exact hred)
      rw [hmain, hstep, hcolors, List.countP_cons, if_neg h]
      simp

/-- C8: starting from colorIndex 0, after the worker delivers any list of
messages of which k carry non-null buffers (null-buffer deliveries freely
interleaved), colorIndex equals k mod paletteLength, for any non-empty
palette. -/
theorem c8_color_cycle {α : Type} (palette : List ℕ)
    (msgs : List (Emission α)) (_hne : palette ≠ []) :
    (processMessages palette msgs).colorIndex =
      (msgs.countP fun m => m.gradients.isSome) % palette.length := by
  have h0 : (initialAppState (α := α) palette).colorIndex %
      (initialAppState (α := α) palette).colors.length =
        (initialAppState (α := α) palette).colorIndex := by
    simp [initialAppState]
  have := foldl_onMessage_colorIndex msgs (initialAppState palette) h0
  simpa [processMessages, initialAppState] using this

theorem c8_color_cycle_witness :
    (processMessages [10, 20] msgsW).colorIndex =
      (msgsW.countP fun m => m.gradients.isSome) % [10, 20].length :=
  c8_color_cycle [10, 20] msgsW (by decide)

/-- C10: processing a rest-round message (both buffers null) replaces the
held buffers with null and overwrites vibrationIntensity with the
message's intensity, while colorIndex and selectedColor stay unchanged;
and colorIndex never changes on a delivery whose gradients are null,
whatever the vibrationValues field. -/
theorem c10_rest_round_effect {α : Type} (st : AppState α) (i : ℚ) :
    (onMessageFromWorker st ⟨i, none, none⟩).vibrationValues = none ∧
    (onMessageFromWorker st ⟨i, none, none⟩).gradients = none ∧
    (onMessageFromWorker st ⟨i, none, none⟩).vibrationIntensity = i ∧
    (onMessageFromWorker st ⟨i, none, none⟩).colorIndex = st.colorIndex ∧
    (onMessageFromWorker st ⟨i, none, none⟩).selectedColor = st.selectedColor ∧
    ∀ vv : Option (ℤ → α),
      (onMessageFromWorker st ⟨i, vv, none⟩).colorIndex = st.colorIndex := by
  refine ⟨?_, ?_, ?_, ?_, ?_, ?_⟩ <;> simp [onMessageFromWorker]

/-- C9: with no active gradient field, one frame update displaces each axis
by r*intensity - intensity/2 for a uniform draw r in [0,1): the
displacement always lies in [-intensity/2, intensity/2), every value of
that interval is reached by some draw, |newPos - oldPos| ≤ intensity, and
the mean displacement over the uniform draw is 0. -/
theorem c9_jitter_no_field (pos intensity r : ℝ)
    (h0 : 0 ≤ r) (h1 : r < 1) (hI : 0 < intensity) :
    (-(intensity / 2) ≤ updateParticleAxis pos none intensity r - pos ∧
      updateParticleAxis pos none intensity r - pos < intensity / 2) ∧
    |updateParticleAxis pos none intensity r - pos| ≤ intensity ∧
    (∀ d : ℝ, -(intensity / 2) ≤ d → d < intensity / 2 →
      ∃ s : ℝ, 0 ≤ s ∧ s < 1 ∧
        updateParticleAxis pos none intensity s - pos = d) ∧
    (∫ s in (0 : ℝ)..1, (updateParticleAxis pos none intensity s - pos)) = 0 := by
  have hd : ∀ s : ℝ, updateParticleAxis pos none intensity s - pos =
      s * intensity - intensity / 2 := by
    intro s
    show pos + (s * intensity - intensity / 2) - pos = s * intensity - intensity / 2
    ring
  have hlow : -(intensity / 2) ≤ updateParticleAxis pos none intensity r - pos := by
    rw [hd]
    nlinarith [mul_nonneg h0 (le_of_lt hI)]
  have hhigh : updateParticleAxis pos none intensity r - pos < intensity / 2 := by
    rw [hd]
    nlinarith [mul_lt_mul_of_pos_right h1 hI]
  refine ⟨⟨hlow, hhigh⟩, ?_, ?_, ?_⟩
  · rw [abs_le]
    constructor <;> nlinarith
  · intro d hd1 hd2
    refine ⟨(d + intensity / 2) / intensity, ?_, ?_, ?_⟩
    · apply div_nonneg _ (le_of_lt hI)
      linarith
    · rw [div_lt_one hI]
      linarith
    · rw [hd, div_mul_cancel₀ _ (ne_of_gt hI)]
      ring
  · have hint : ∀ s : ℝ, updateParticleAxis pos none intensity s - pos =
        s * intensity - intensity / 2 := hd
    rw [intervalIntegral.integral_congr (g := fun s =>
      s * intensity - intensity / 2) (fun s _ => hint s)]
    rw [intervalIntegral.integral_sub
      (IntervalIntegrable.mul_const intervalIntegral.intervalIntegrable_id intensity)
      (intervalIntegrable_const)]
    rw [intervalIntegral.integral_mul_const, integral_id,
      intervalIntegral.integral_const, smul_eq_mul]
    ring

theorem c9_jitter_no_field_witness :
    (-((2 : ℝ) / 2) ≤ updateParticleAxis 0 none 2 0 - 0 ∧
      updateParticleAxis 0 none 2 0 - 0 < 2 / 2) ∧
    |updateParticleAxis 0 none 2 0 - 0| ≤ 2 ∧
    (∀ d : ℝ, -((2 : ℝ) / 2) ≤ d → d < 2 / 2 →
      ∃ s : ℝ, 0 ≤ s ∧ s < 1 ∧ updateParticleAxis 0 none 2 s - 0 = d) ∧
    (∫ s in (0 : ℝ)..1, (updateParticleAxis 0 none 2 s - 0)) = 0 :=
  c9_jitter_no_field 0 2 0 (le_refl 0) (by norm_num) (by norm_num)

/-- C4 failing input, evaluated: on a 3x3 grid with a gradient field active,
a particle at (3,0) — whose rounded position lies outside [0,3)x[0,3) —
is neither skipped nor treated as having no field: its gradient sample
reads the flat slots of grid cell (0,1) (index 6 = 2*(1*3+0)), and the
raster write lands in framebuffer slot 3, the in-range cell (0,1).
update/obtainGradientAt have no bounds guard, so the access wraps into the
next row instead of being skipped. -/
theorem c4_oob_particle_not_guarded :
    ¬ ((0 : ℝ) ≤ 3 ∧ (3 : ℝ) < 3) ∧
    (round (0 : ℝ) * 3 + round (3 : ℝ)) * 2 = 2 * (1 * 3 + 0) ∧
    updateParticle (some fun _ => 0) 3 (3, 0) 2 (1/2) (1/2) = (3, 0) ∧
    bufferWriteSlot (3 * 3) (rasterIndex 3 (3 : ℝ) (0 : ℝ)) = some (1 * 3 + 0) := by
  have h3 : round (3 : ℝ) = 3 := by
    rw [show (3 : ℝ) = ((3 : ℤ) : ℝ) by norm_num, round_intCast]
  have h0 : round (0 : ℝ) = 0 := round_zero
  refine ⟨by norm_num, by rw [h3, h0]; norm_num, ?_, ?_⟩
  · simp only [updateParticle, obtainGradientAt, updateParticleAxis,
      MAX_GRADIENT_INTENSITY]
    norm_num
  · simp only [rasterIndex, bufferWriteSlot, h3, h0]
    norm_num

end Chladni
